import Mathlib

/-!
Shallow embedding of the Trade Matching & Aggregation Engine of
`src/journal.py` (trading-journal CLI).

Python floats are modelled as exact rationals (`ℚ`); stored quantities are
natural numbers (the importer stores `abs(int(Quantity))`, and the matcher's
`remaining` / `buy_remaining` counters never go below zero because each
matched quantity is a `min` of the two).  SQLite tables are modelled as Lean
lists kept in insertion (rowid) order; `ORDER BY id` is the list order.
-/

namespace TradingJournal

/-- Canonical contract identity (underlying, expiration, strike, option
type), the grouping key of `calculate_round_trips`. -/
structure ContractId where
  underlying : String
  expiration : String
  strike : ℚ
  option_type : String
deriving DecidableEq, Repr

/-- One row of the `executions` table, as inserted by `import_etrade_csv`
(free-text `description` / `raw_data` columns are never read by the engine
and are omitted). -/
structure Exec where
  date : String
  transaction_type : String
  security_type : String
  symbol : String
  contract : ContractId
  quantity : Nat
  price : ℚ
  amount : ℚ
  commission : ℚ
deriving DecidableEq, Repr

/-- One row of the `round_trips` table, as inserted by
`calculate_round_trips`.  The `buyIdx` / `sellIdx` fields instrument
provenance: they record which element of the group's buy list and sell list
the slice was matched from (the code does not store them, but they are fully
determined by the matching loop and are needed to state the consumption
invariants). -/
structure RoundTrip where
  date : String
  contract : ContractId
  direction : String
  quantity : Nat
  entry_price : ℚ
  exit_price : ℚ
  entry_amount : ℚ
  exit_amount : ℚ
  gross_pnl : ℚ
  net_pnl : ℚ
  commission_total : ℚ
  pnl_percent : ℚ
  buyIdx : Nat
  sellIdx : Nat
deriving DecidableEq, Repr

/-- The buy-side cursor state of the FIFO loop in `calculate_round_trips`:
`buy_idx`, `buy_remaining`, `buy_price`, `buy_amount_per`, `buy_comm_per`. -/
structure BuyCursor where
  buy_idx : Nat
  buy_remaining : Nat
  buy_price : ℚ
  buy_amount_per : ℚ
  buy_comm_per : ℚ
deriving DecidableEq, Repr

/-- The row `calculate_round_trips` inserts for one matched slice of size
`match_qty`, read off the current buy cursor `st` and the current sell's
`sell_price` / `sell_amount_per` / `sell_comm_per` (`sp`, `sap`, `scp`). -/
def mkRoundTrip (d : String) (c : ContractId) (i : Nat) (sp sap scp : ℚ)
    (st : BuyCursor) (match_qty : Nat) : RoundTrip :=
  { date := d, contract := c, direction := "Long", quantity := match_qty,
    entry_price := st.buy_price, exit_price := sp,
    entry_amount := |st.buy_amount_per * (match_qty : ℚ)|,
    exit_amount := sap * (match_qty : ℚ),
    gross_pnl := (sp - st.buy_price) * (match_qty : ℚ) * 100,
    net_pnl := sap * (match_qty : ℚ) + st.buy_amount_per * (match_qty : ℚ),
    commission_total := (st.buy_comm_per + scp) * (match_qty : ℚ),
    pnl_percent := if st.buy_price = 0 then 0 else (sp / st.buy_price - 1) * 100,
    buyIdx := st.buy_idx, sellIdx := i }

/-- The `if match_qty > 0:` insert of one loop iteration. -/
def emitRTs (d : String) (c : ContractId) (i : Nat) (sp sap scp : ℚ)
    (st : BuyCursor) (match_qty : Nat) : List RoundTrip :=
  if 0 < match_qty then [mkRoundTrip d c i sp sap scp st match_qty] else []

/-- The `if buy_remaining <= 0:` cursor advance: move to the next buy and
load its price / per-unit amount / per-unit commission, or, past the end of
the buy list, keep the stale per-unit fields (the loop then exits). -/
def nextCursor (buys : List Exec) (st : BuyCursor) : BuyCursor :=
  match buys[st.buy_idx + 1]? with
  | some b =>
    ⟨st.buy_idx + 1, b.quantity, b.price,
     b.amount / (b.quantity : ℚ), b.commission / (b.quantity : ℚ)⟩
  | none => ⟨st.buy_idx + 1, 0, st.buy_price, st.buy_amount_per, st.buy_comm_per⟩

/-- Prepend the round trips already inserted this iteration to a loop
result. -/
def consRTs (l : List RoundTrip) (p : BuyCursor × List RoundTrip) :
    BuyCursor × List RoundTrip :=
  (p.1, l ++ p.2)

/-- The `while remaining > 0 and buy_idx < len(buys)` loop of
`calculate_round_trips`, for a single sell execution: returns the final buy
cursor together with the round trips inserted during this sell, in
insertion order. -/
def matchSell (d : String) (c : ContractId) (buys : List Exec) (i : Nat)
    (sp sap scp : ℚ) (remaining : Nat) (st : BuyCursor) :
    BuyCursor × List RoundTrip :=
  if h : 0 < remaining ∧ st.buy_idx < buys.length then
    if st.buy_remaining - min remaining st.buy_remaining = 0 then
      consRTs (emitRTs d c i sp sap scp st (min remaining st.buy_remaining))
        (matchSell d c buys i sp sap scp
          (remaining - min remaining st.buy_remaining) (nextCursor buys st))
    else
      consRTs (emitRTs d c i sp sap scp st (min remaining st.buy_remaining))
        (matchSell d c buys i sp sap scp
          (remaining - min remaining st.buy_remaining)
          ⟨st.buy_idx, st.buy_remaining - min remaining st.buy_remaining,
           st.buy_price, st.buy_amount_per, st.buy_comm_per⟩)
  else (st, [])
termination_by (buys.length - st.buy_idx, remaining)
decreasing_by
  · apply Prod.Lex.left
    have hidx : (nextCursor buys st).buy_idx = st.buy_idx + 1 := by
      unfold nextCursor
      cases buys[st.buy_idx + 1]? <;> rfl
    omega
  · apply Prod.Lex.right
    omega

/-- The `for sell in sells` loop of `calculate_round_trips`: fold
`matchSell` over the sell list (with its index), threading the buy cursor,
and concatenate the inserted round trips in insertion order. -/
def matchSells (d : String) (c : ContractId) (buys : List Exec) :
    List Exec → Nat → BuyCursor → List RoundTrip
  | [], _, _ => []
  | sell :: rest, i, st =>
    let res := matchSell d c buys i sell.price
      (sell.amount / (sell.quantity : ℚ)) (sell.commission / (sell.quantity : ℚ))
      sell.quantity st
    res.2 ++ matchSells d c buys rest (i + 1) res.1

/-- The per-contract body of `calculate_round_trips`: skip the group when
either side is empty (`if not buys or not sells: continue`), otherwise run
the FIFO loop with the cursor initialized from the first buy. -/
def calculate_round_trips_group (d : String) (c : ContractId)
    (buys sells : List Exec) : List RoundTrip :=
  match buys, sells with
  | [], _ => []
  | _, [] => []
  | b :: bs, s :: ss =>
    matchSells d c (b :: bs) (s :: ss) 0
      ⟨0, b.quantity, b.price, b.amount / (b.quantity : ℚ),
       b.commission / (b.quantity : ℚ)⟩

/-- Fuel-indexed rendering of the same `while` loop, structurally recursive
on the fuel counter: one unit of fuel is one loop iteration; `none` means
the fuel ran out before the loop condition became false.  Used to state the
termination of the loop as a theorem with an explicit iteration bound. -/
def matchSellFuel (d : String) (c : ContractId) (buys : List Exec)
    (i : Nat) (sp sap scp : ℚ) :
    Nat → Nat → BuyCursor → Option (BuyCursor × List RoundTrip)
  | 0, remaining, st =>
    if 0 < remaining ∧ st.buy_idx < buys.length then none else some (st, [])
  | fuel + 1, remaining, st =>
    if 0 < remaining ∧ st.buy_idx < buys.length then
      (matchSellFuel d c buys i sp sap scp fuel
        (remaining - min remaining st.buy_remaining)
        (if st.buy_remaining - min remaining st.buy_remaining = 0 then
          nextCursor buys st
         else
          ⟨st.buy_idx, st.buy_remaining - min remaining st.buy_remaining,
           st.buy_price, st.buy_amount_per, st.buy_comm_per⟩)).map
        (consRTs (emitRTs d c i sp sap scp st (min remaining st.buy_remaining)))
    else some (st, [])

/-- Fuel-based rendering of the sell loop, with each sell given the
(provably sufficient) fuel `buys.length + sell.quantity + 1`. -/
def matchSellsFuel (d : String) (c : ContractId) (buys : List Exec) :
    List Exec → Nat → BuyCursor → Option (List RoundTrip)
  | [], _, _ => some []
  | sell :: rest, i, st =>
    match matchSellFuel d c buys i sell.price
      (sell.amount / (sell.quantity : ℚ)) (sell.commission / (sell.quantity : ℚ))
      (buys.length + sell.quantity + 1) sell.quantity st with
    | none => none
    | some res =>
      match matchSellsFuel d c buys rest (i + 1) res.1 with
      | none => none
      | some rts => some (res.2 ++ rts)

/-- Fuel-based rendering of `calculate_round_trips_group`; evaluates by
kernel reduction (the well-founded recursion of `matchSell` does not). -/
def groupFuel (d : String) (c : ContractId) (buys sells : List Exec) :
    Option (List RoundTrip) :=
  match buys, sells with
  | [], _ => some []
  | _, [] => some []
  | b :: bs, s :: ss =>
    matchSellsFuel d c (b :: bs) (s :: ss) 0
      ⟨0, b.quantity, b.price, b.amount / (b.quantity : ℚ),
       b.commission / (b.quantity : ℚ)⟩

/-- Executable evaluator for the group matcher (see `groupEval_eq`). -/
def groupEval (d : String) (c : ContractId) (buys sells : List Exec) :
    List RoundTrip :=
  (groupFuel d c buys sells).getD []

/-- Total matched quantity of a list of round trips. -/
def qsum (rts : List RoundTrip) : Nat := (rts.map (·.quantity)).sum

/-- Matched quantity drawn from the buy at index `j` of the group's buy
list. -/
def consumedBuy (rts : List RoundTrip) (j : Nat) : Nat :=
  qsum (rts.filter (fun rt => rt.buyIdx = j))

/-- Matched quantity drawn from the sell at index `k` of the group's sell
list. -/
def consumedSell (rts : List RoundTrip) (k : Nat) : Nat :=
  qsum (rts.filter (fun rt => rt.sellIdx = k))

/-- Quantity of the buy at index `j` still available to the FIFO loop in
cursor state `st`: none for buys already passed, `buy_remaining` at the
cursor, the full quantity beyond it. -/
def avail (buys : List Exec) (st : BuyCursor) (j : Nat) : Nat :=
  if j < st.buy_idx then 0
  else if j = st.buy_idx then st.buy_remaining
  else ((buys[j]?).map (·.quantity)).getD 0

/-- Total buy-side quantity still available to the FIFO loop. -/
def availTotal (buys : List Exec) (st : BuyCursor) : Nat :=
  st.buy_remaining + ((buys.drop (st.buy_idx + 1)).map (·.quantity)).sum

/-- The cursor's cached price and per-unit fields agree with the buy it
points at (holds for the initial cursor and is preserved by the loop). -/
def cursorOk (buys : List Exec) (st : BuyCursor) : Prop :=
  ∀ b, buys[st.buy_idx]? = some b →
    st.buy_price = b.price ∧
    st.buy_amount_per = b.amount / (b.quantity : ℚ) ∧
    st.buy_comm_per = b.commission / (b.quantity : ℚ)

def qqqCall : ContractId :=
  ⟨"QQQ", "2026-02-05", 609, "Call"⟩

def buyTwoAtOne : Exec :=
  ⟨"2026-02-05", "Bought", "OPTN", "QQQ---260205C00609000", qqqCall,
   2, 1, -200, 1⟩

def buyThreeAtSixFifths : Exec :=
  ⟨"2026-02-05", "Bought", "OPTN", "QQQ---260205C00609000", qqqCall,
   3, 6 / 5, -360, 1⟩

def sellFourAtThreeHalves : Exec :=
  ⟨"2026-02-05", "Sold", "OPTN", "QQQ---260205C00609000", qqqCall,
   4, 3 / 2, 600, 1⟩

def rtDefault : RoundTrip :=
  ⟨"", qqqCall, "", 0, 0, 0, 0, 0, 0, 0, 0, 0, 0, 0⟩

/-- The first round trip emitted on the worked example (used to witness
the field-formula theorem at a concrete input). -/
def rtFirst : RoundTrip :=
  (groupEval "2026-02-05" qqqCall [buyTwoAtOne, buyThreeAtSixFifths]
    [sellFourAtThreeHalves]).headD rtDefault

def c10Cursor : BuyCursor := ⟨0, 2, 1, -100, 1 / 2⟩

/-- One row of the `daily_summary` table.  SQL aggregates that can be NULL
(`AVG` over an empty filtered set, `MAX`/`MIN` over no rows) are `Option`. -/
structure DailySummary where
  total_trades : Nat
  winners : Nat
  losers : Nat
  scratches : Nat
  win_rate : ℚ
  gross_pnl : ℚ
  commissions : ℚ
  net_pnl : ℚ
  largest_win : Option ℚ
  largest_loss : Option ℚ
  avg_winner : Option ℚ
  avg_loser : Option ℚ
  avg_trade : ℚ
  profit_factor : ℚ
deriving DecidableEq, Repr

/-- The summary row `calculate_daily_summary` derives from a date's round
trips, or `none` when the date has no round trips (`row['total'] == 0`).
`gross_wins` is `SUM(net_pnl) WHERE net_pnl > 0` with SQL NULL read as `0`;
the losses denominator is `ABS(SUM(net_pnl)) WHERE net_pnl < 0` with a
falsy value (NULL or `0.0`) replaced by `0.01` (Python `... or 0.01`). -/
def summarize (rts : List RoundTrip) : Option DailySummary :=
  if rts.isEmpty then none else
  let nets := rts.map (·.net_pnl)
  let winners := (nets.filter (fun x => 1 < x)).length
  let posNets := nets.filter (fun x => 0 < x)
  let negNets := nets.filter (fun x => x < 0)
  let gross_wins := posNets.sum
  let lossSum := |negNets.sum|
  let gross_losses := if lossSum = 0 then 1 / 100 else lossSum
  some {
    total_trades := rts.length
    winners := winners
    losers := (nets.filter (fun x => x < -1)).length
    scratches := (nets.filter (fun x => -1 ≤ x ∧ x ≤ 1)).length
    win_rate := if 0 < rts.length then (winners : ℚ) / (rts.length : ℚ) * 100 else 0
    gross_pnl := (rts.map (·.gross_pnl)).sum
    commissions := (rts.map (·.commission_total)).sum
    net_pnl := nets.sum
    largest_win := nets.max?
    largest_loss := nets.min?
    avg_winner := if posNets.isEmpty then none
      else some (posNets.sum / (posNets.length : ℚ))
    avg_loser := if negNets.isEmpty then none
      else some (negNets.sum / (negNets.length : ℚ))
    avg_trade := nets.sum / (rts.length : ℚ)
    profit_factor := if 0 < gross_losses then gross_wins / gross_losses else 0 }

/-- First-occurrence list of the distinct contract identities of a date's
executions (`SELECT DISTINCT underlying, expiration, strike, option_type`). -/
def distinctContracts (execs : List Exec) : List ContractId :=
  execs.foldl (fun acc e => if e.contract ∈ acc then acc else acc ++ [e.contract]) []

/-- One contract group of `calculate_round_trips`: the date's buys and
sells for that contract, in rowid order. -/
def groupRoundTrips (d : String) (dayExecs : List Exec) (c : ContractId) :
    List RoundTrip :=
  let buys := dayExecs.filter (fun e => e.contract = c ∧ e.transaction_type = "Bought")
  let sells := dayExecs.filter (fun e => e.contract = c ∧ e.transaction_type = "Sold")
  calculate_round_trips_group d c buys sells

/-- All round trips `calculate_round_trips` inserts for a date: one group
per distinct contract, concatenated in group order. -/
def dayRoundTrips (execs : List Exec) (d : String) : List RoundTrip :=
  let dayExecs := execs.filter (fun e => e.date = d)
  ((distinctContracts dayExecs).map (groupRoundTrips d dayExecs)).flatten

/-- The persistent state the engine reads and writes: the `executions`,
`round_trips` and `daily_summary` tables (the latter keyed by date). -/
structure DB where
  executions : List Exec
  round_trips : List RoundTrip
  daily_summary : List (String × DailySummary)
deriving DecidableEq, Repr

/-- `calculate_round_trips(conn, trade_date)`: delete the date's round
trips, then regenerate them from the date's executions. -/
def calculate_round_trips (db : DB) (d : String) : DB :=
  { db with round_trips :=
      db.round_trips.filter (fun rt => rt.date ≠ d) ++ dayRoundTrips db.executions d }

/-- `calculate_daily_summary(conn, trade_date)`: recompute the summary from
the date's round trips; when the date has none, return without touching the
`daily_summary` table (the early `return`), otherwise `INSERT OR REPLACE`
the date's row. -/
def calculate_daily_summary (db : DB) (d : String) : DB :=
  match summarize (db.round_trips.filter (fun rt => rt.date = d)) with
  | none => db
  | some s =>
    { db with daily_summary := db.daily_summary.filter (fun p => p.1 ≠ d) ++ [(d, s)] }

/-- The per-date recompute performed for each affected date of an import:
`calculate_round_trips` then `calculate_daily_summary`. -/
def recomputeDay (db : DB) (d : String) : DB :=
  calculate_daily_summary (calculate_round_trips db d) d

/-- The daily-summary lookup of `show_trades`
(`SELECT * FROM daily_summary WHERE date = ?`). -/
def getDailySummary (db : DB) (d : String) : Option DailySummary :=
  (db.daily_summary.find? (fun p => p.1 = d)).map (·.2)

/-- A pre-existing summary row used by the stale-row counterexample. -/
def summaryStale : DailySummary :=
  ⟨1, 1, 0, 0, 100, 50, 0, 50, some 50, some 50, some 50, none, 50, 5000⟩

/-- A database whose executions yield no round trips for the date, yet a
summary row for the date already exists. -/
def dbStale : DB := ⟨[], [], [("2026-02-05", summaryStale)]⟩

/-- A round trip whose only relevant field is its net P/L (the aggregator
reads nothing else in the claims below). -/
def rtNet (q : ℚ) : RoundTrip :=
  ⟨"2026-02-05", qqqCall, "Long", 1, 0, 0, 0, 0, 0, q, 0, 0, 0, 0⟩

/-- The profit-factor formula as the specification words it: winners' net
P/L sum over the losses denominator floored by `max` with the epsilon. -/
def profit_factor_spec_formula (rts : List RoundTrip) (eps : ℚ) : ℚ :=
  ((rts.map (·.net_pnl)).filter (fun x => 0 < x)).sum
    / max eps |((rts.map (·.net_pnl)).filter (fun x => x < 0)).sum|

/-- Zero-padded two-digit rendering (Python `{n:02d}` for `0 ≤ n < 100`;
wider numbers print in full either way). -/
def pad2 (n : Nat) : String :=
  if n < 10 then "0" ++ toString n else toString n

/-- `parse_trade_date`: split `MM/DD/YY` on `/`; anything but exactly three
numeric fields raises `ValueError` in the source, which every caller treats
as "skip the record", so it is modelled as `none`.  (Python `int` also
accepts surrounding whitespace and a sign; such exotic components are not
exercised here and are modelled as parse failures.) -/
def parse_trade_date (date_str : String) : Option String :=
  match date_str.splitOn "/" with
  | [m, d, y] =>
    match m.toNat?, d.toNat?, y.toNat? with
    | some mo, some da, some yr =>
      let yr := if yr < 100 then 2000 + yr else yr
      some (toString yr ++ "-" ++ pad2 mo ++ "-" ++ pad2 da)
    | _, _, _ => none
  | _ => none

/-- Result of `parse_occ_symbol`. -/
structure OccParsed where
  underlying : String
  expiration : String
  option_type : String
  strike : ℚ
deriving DecidableEq, Repr

/-- Digit string to number, most significant first. -/
def digitsToNat (cs : List Char) : Nat :=
  cs.foldl (fun n ch => 10 * n + (ch.toNat - 48)) 0

/-- `parse_occ_symbol`: the anchored pattern
underlying letters, optional dashes, 6-digit date `YYMMDD`, `C` or `P`,
8-digit strike with implied 3 decimals (trailing characters ignored).
The character classes of consecutive pieces are disjoint, so the greedy
maximal-munch scan below is equivalent to the source's regex search. -/
def parse_occ_symbol (symbol : String) : Option OccParsed :=
  let cs := symbol.toList
  let und := cs.takeWhile (fun ch => 'A' ≤ ch ∧ ch ≤ 'Z')
  let rest := (cs.dropWhile (fun ch => 'A' ≤ ch ∧ ch ≤ 'Z')).dropWhile (fun ch => ch = '-')
  if und.isEmpty then none
  else if (rest.take 6).length = 6 ∧ (rest.take 6).all Char.isDigit then
    match rest.drop 6 with
    | [] => none
    | cp :: rest2 =>
      if cp = 'C' ∨ cp = 'P' then
        if (rest2.take 8).length = 8 ∧ (rest2.take 8).all Char.isDigit then
          let dateDigits := rest.take 6
          let year := 2000 + digitsToNat (dateDigits.take 2)
          let month := digitsToNat ((dateDigits.drop 2).take 2)
          let day := digitsToNat ((dateDigits.drop 4).take 2)
          some { underlying := String.mk und,
                 expiration := toString year ++ "-" ++ pad2 month ++ "-" ++ pad2 day,
                 option_type := if cp = 'C' then "Call" else "Put",
                 strike := (digitsToNat (rest2.take 8) : ℚ) / 1000 }
        else none
      else none
  else none

/-- One data row of the E*TRADE CSV, with the numeric columns already
converted (the conversions `int` / `float` live inside the same silent
`try`/`except ... continue` as the insert; rows with unconvertible numeric
columns are skipped uncounted and are not exercised by the claims). -/
structure Row where
  transactionDate : String
  transactionType : String
  securityType : String
  symbol : String
  quantity : Int
  price : ℚ
  amount : ℚ
  commission : ℚ
deriving DecidableEq, Repr

/-- What `import_etrade_csv` returns and reports: the inserted executions,
the `imported` counter, and the `skipped` counter (which the source
increments only when `INSERT OR IGNORE` ignores a duplicate). -/
structure ImportResult where
  executions : List Exec
  imported : Nat
  skipped : Nat
deriving DecidableEq, Repr

/-- Modelled from the spec: the `executions` table's deduplication
constraint lives in `schema.sql`, which is not part of the repository
snapshot; section 4.2 of the spec gives the natural key as all normalized
fields (date, type, symbol, quantity, price, amount, commission). -/
def natKey (e : Exec) : String × String × String × Nat × ℚ × ℚ × ℚ :=
  (e.date, e.transaction_type, e.symbol, e.quantity, e.price, e.amount, e.commission)

/-- The per-row body of `import_etrade_csv`'s loop: empty or malformed
dates and non-option symbols are skipped silently (`continue`, no counter);
a duplicate natural key bumps `skipped`; otherwise the execution is
inserted and `imported` is bumped.  Quantity is stored as `abs(int(...))`. -/
def importRowStep (acc : ImportResult) (row : Row) : ImportResult :=
  if row.transactionDate = "" then acc
  else
    match parse_trade_date row.transactionDate with
    | none => acc
    | some trade_date =>
      match parse_occ_symbol row.symbol with
      | none => acc
      | some parsed =>
        let e : Exec :=
          { date := trade_date, transaction_type := row.transactionType,
            security_type := row.securityType, symbol := row.symbol,
            contract := { underlying := parsed.underlying,
                          expiration := parsed.expiration,
                          strike := parsed.strike,
                          option_type := parsed.option_type },
            quantity := row.quantity.natAbs, price := row.price,
            amount := row.amount, commission := row.commission }
        if natKey e ∈ acc.executions.map natKey then
          { acc with skipped := acc.skipped + 1 }
        else
          { acc with executions := acc.executions ++ [e],
                     imported := acc.imported + 1 }

/-- The row loop of `import_etrade_csv`, over the data rows of the CSV
(the header scan and the post-import per-date recompute, `recomputeDay`,
are modelled separately). -/
def import_etrade_csv (rows : List Row) : ImportResult :=
  rows.foldl importRowStep { executions := [], imported := 0, skipped := 0 }

/-- A CSV row whose date is not `MM/DD/YY` (no slashes): `parse_trade_date`
raises and the row loop skips it via `continue`. -/
def rowMalformedDate : Row :=
  ⟨"02-05-26", "Bought", "OPTN", "QQQ---260205C00609000", 1, 1, -100, 0⟩

/-- A valid, dedup-distinct option row (rows differ by price). -/
def c8Row (p : ℚ) : Row :=
  ⟨"2/5/26", "Bought", "OPTN", "QQQ---260205C00609000", 1, p, -100, 0⟩

/-- One malformed-date row followed by nine valid, non-duplicate rows. -/
def c8Rows : List Row :=
  rowMalformedDate :: ([1, 2, 3, 4, 5, 6, 7, 8, 9] : List ℚ).map c8Row

theorem nextCursor_idx (buys : List Exec) (st : BuyCursor) :
    (nextCursor buys st).buy_idx = st.buy_idx + 1 := by
  unfold nextCursor
  cases buys[st.buy_idx + 1]? <;> rfl

/-- The fuel-indexed loop completes (with the loop's result) whenever the
fuel exceeds the loop's lexicographic measure: each iteration either
advances the buy cursor or zeroes the sell's remaining quantity. -/
theorem matchSellFuel_correct (d : String) (c : ContractId) (buys : List Exec)
    (i : Nat) (sp sap scp : ℚ) :
    ∀ (fuel remaining : Nat) (st : BuyCursor),
      buys.length - st.buy_idx + remaining < fuel →
      matchSellFuel d c buys i sp sap scp fuel remaining st
        = some (matchSell d c buys i sp sap scp remaining st)
  | 0, _, _, hf => absurd hf (by omega)
  | fuel + 1, remaining, st, hf => by
    rw [matchSell]
    by_cases hc : 0 < remaining ∧ st.buy_idx < buys.length
    · rw [matchSellFuel, if_pos hc, dif_pos hc]
      by_cases hbr : st.buy_remaining - min remaining st.buy_remaining = 0
      · rw [if_pos hbr, if_pos hbr,
          matchSellFuel_correct d c buys i sp sap scp fuel _ _
            (by rw [nextCursor_idx]; omega)]
        rfl
      · rw [if_neg hbr, if_neg hbr,
          matchSellFuel_correct d c buys i sp sap scp fuel _ _ (by dsimp only; omega)]
        rfl
    · rw [matchSellFuel, if_neg hc, dif_neg hc]

/-- The per-sell fuel budget `buys.length + sell.quantity + 1` used by
`matchSellsFuel` is always sufficient. -/
theorem matchSellsFuel_eq (d : String) (c : ContractId) (buys : List Exec) :
    ∀ (ss : List Exec) (i : Nat) (st : BuyCursor),
      matchSellsFuel d c buys ss i st = some (matchSells d c buys ss i st)
  | [], _, _ => rfl
  | sell :: rest, i, st => by
    rw [matchSells, matchSellsFuel,
      matchSellFuel_correct d c buys i _ _ _ _ _ _ (by omega)]
    dsimp only
    rw [matchSellsFuel_eq d c buys rest (i + 1) _]

/-- `groupFuel` computes `calculate_round_trips_group`. -/
theorem group_eq_groupFuel (d : String) (c : ContractId)
    (buys sells : List Exec) :
    groupFuel d c buys sells = some (calculate_round_trips_group d c buys sells) := by
  cases buys with
  | nil => cases sells <;> rfl
  | cons b bs =>
    cases sells with
    | nil => rfl
    | cons s ss =>
      rw [groupFuel, calculate_round_trips_group, matchSellsFuel_eq]

/-- `groupEval` is an executable form of the group matcher. -/
theorem groupEval_eq (d : String) (c : ContractId) (buys sells : List Exec) :
    groupEval d c buys sells = calculate_round_trips_group d c buys sells := by
  rw [groupEval, group_eq_groupFuel]; rfl

@[simp] theorem consRTs_fst (l : List RoundTrip) (p : BuyCursor × List RoundTrip) :
    (consRTs l p).1 = p.1 := rfl

@[simp] theorem consRTs_snd (l : List RoundTrip) (p : BuyCursor × List RoundTrip) :
    (consRTs l p).2 = l ++ p.2 := rfl

@[simp] theorem qsum_nil : qsum [] = 0 := rfl

@[simp] theorem qsum_append (a b : List RoundTrip) :
    qsum (a ++ b) = qsum a + qsum b := by
  simp [qsum]

@[simp] theorem qsum_emitRTs (d : String) (c : ContractId) (i : Nat)
    (sp sap scp : ℚ) (st : BuyCursor) (mq : Nat) :
    qsum (emitRTs d c i sp sap scp st mq) = mq := by
  unfold emitRTs
  split
  · simp [qsum, mkRoundTrip]
  · simp only [qsum, List.map_nil, List.sum_nil]
    omega

@[simp] theorem consumedBuy_nil (j : Nat) : consumedBuy [] j = 0 := rfl

@[simp] theorem consumedBuy_append (a b : List RoundTrip) (j : Nat) :
    consumedBuy (a ++ b) j = consumedBuy a j + consumedBuy b j := by
  simp [consumedBuy, List.filter_append]

@[simp] theorem consumedBuy_emitRTs (d : String) (c : ContractId) (i : Nat)
    (sp sap scp : ℚ) (st : BuyCursor) (mq j : Nat) :
    consumedBuy (emitRTs d c i sp sap scp st mq) j
      = if j = st.buy_idx then mq else 0 := by
  unfold consumedBuy emitRTs
  split
  · by_cases hj : j = st.buy_idx
    · subst hj
      simp [mkRoundTrip, qsum]
    · have hne : ¬(mkRoundTrip d c i sp sap scp st mq).buyIdx = j :=
        fun h => hj h.symm
      simp [qsum, hne, if_neg hj]
  · have h0 : mq = 0 := by omega
    subst h0
    simp [qsum]

@[simp] theorem consumedSell_nil (k : Nat) : consumedSell [] k = 0 := rfl

@[simp] theorem consumedSell_append (a b : List RoundTrip) (k : Nat) :
    consumedSell (a ++ b) k = consumedSell a k + consumedSell b k := by
  simp [consumedSell, List.filter_append]

@[simp] theorem consumedSell_emitRTs (d : String) (c : ContractId) (i : Nat)
    (sp sap scp : ℚ) (st : BuyCursor) (mq k : Nat) :
    consumedSell (emitRTs d c i sp sap scp st mq) k
      = if k = i then mq else 0 := by
  unfold consumedSell emitRTs
  split
  · by_cases hk : k = i
    · subst hk
      simp [mkRoundTrip, qsum]
    · have hne : ¬(mkRoundTrip d c i sp sap scp st mq).sellIdx = k :=
        fun h => hk h.symm
      simp [qsum, hne, if_neg hk]
  · have h0 : mq = 0 := by omega
    subst h0
    simp [qsum]

theorem nextCursor_remaining (buys : List Exec) (st : BuyCursor) :
    (nextCursor buys st).buy_remaining
      = ((buys[st.buy_idx + 1]?).map (·.quantity)).getD 0 := by
  unfold nextCursor
  cases buys[st.buy_idx + 1]? <;> rfl

theorem avail_lt (buys : List Exec) (st : BuyCursor) (j : Nat)
    (h : j < st.buy_idx) : avail buys st j = 0 := by
  unfold avail
  rw [if_pos h]

theorem avail_at (buys : List Exec) (st : BuyCursor) :
    avail buys st st.buy_idx = st.buy_remaining := by
  unfold avail
  rw [if_neg (by omega), if_pos rfl]

theorem avail_gt (buys : List Exec) (st : BuyCursor) (j : Nat)
    (h : st.buy_idx < j) :
    avail buys st j = ((buys[j]?).map (·.quantity)).getD 0 := by
  unfold avail
  rw [if_neg (by omega), if_neg (by omega)]

/-- Advancing the cursor transfers exactly `buy_remaining` out of the
availability of the buy it pointed at. -/
theorem avail_nextCursor (buys : List Exec) (st : BuyCursor) (j : Nat) :
    avail buys (nextCursor buys st) j
      + (if j = st.buy_idx then st.buy_remaining else 0)
      = avail buys st j := by
  by_cases hj1 : j = st.buy_idx + 1
  · subst hj1
    unfold avail
    rw [nextCursor_idx, nextCursor_remaining]
    split_ifs <;> omega
  · unfold avail
    rw [nextCursor_idx, nextCursor_remaining]
    split_ifs <;> omega

/-- Shrinking `buy_remaining` by a matched quantity transfers exactly that
quantity out of the availability of the buy at the cursor. -/
theorem avail_decr (buys : List Exec) (st : BuyCursor) (j mq : Nat)
    (hm : mq ≤ st.buy_remaining) :
    avail buys ⟨st.buy_idx, st.buy_remaining - mq, st.buy_price,
        st.buy_amount_per, st.buy_comm_per⟩ j
      + (if j = st.buy_idx then mq else 0)
      = avail buys st j := by
  unfold avail
  dsimp only
  split_ifs <;> omega

/-- Advancing the cursor removes exactly `buy_remaining` from the total
buy-side availability. -/
theorem availTotal_nextCursor (buys : List Exec) (st : BuyCursor) :
    availTotal buys (nextCursor buys st) + st.buy_remaining
      = availTotal buys st := by
  unfold availTotal
  rw [nextCursor_idx, nextCursor_remaining]
  by_cases h : st.buy_idx + 1 < buys.length
  · rw [List.getElem?_eq_getElem h,
      List.drop_eq_getElem_cons h]
    simp only [Option.map_some', Option.getD_some, List.map_cons, List.sum_cons]
    omega
  · rw [List.getElem?_eq_none (by omega),
      show List.drop (st.buy_idx + 1) buys = [] from List.drop_eq_nil_of_le (by omega),
      show List.drop (st.buy_idx + 1 + 1) buys = [] from List.drop_eq_nil_of_le (by omega)]
    simp

/-- Shrinking `buy_remaining` by a matched quantity removes exactly that
quantity from the total buy-side availability. -/
theorem availTotal_decr (buys : List Exec) (st : BuyCursor) (mq : Nat)
    (hm : mq ≤ st.buy_remaining) :
    availTotal buys ⟨st.buy_idx, st.buy_remaining - mq, st.buy_price,
        st.buy_amount_per, st.buy_comm_per⟩ + mq
      = availTotal buys st := by
  unfold availTotal
  dsimp only
  omega

theorem qsum_filter_le (p : RoundTrip → Bool) (rts : List RoundTrip) :
    qsum (rts.filter p) ≤ qsum rts := by
  induction rts with
  | nil => simp
  | cons rt rest ih =>
    rw [List.filter_cons]
    by_cases h : p rt
    · rw [if_pos h]
      simp only [qsum, List.map_cons, List.sum_cons] at *
      omega
    · rw [if_neg h]
      simp only [qsum, List.map_cons, List.sum_cons] at *
      omega

/-- The matched quantities of one sell's loop account exactly for the
decrease of every buy's availability. -/
theorem matchSell_avail (d : String) (c : ContractId) (buys : List Exec)
    (i : Nat) (sp sap scp : ℚ) (remaining : Nat) (st : BuyCursor) :
    ∀ j : Nat,
      avail buys (matchSell d c buys i sp sap scp remaining st).1 j
        + consumedBuy (matchSell d c buys i sp sap scp remaining st).2 j
        = avail buys st j := by
  induction remaining, st using matchSell.induct d c buys i sp sap scp with
  | case1 remaining st h hbr ih =>
    intro j
    rw [matchSell, dif_pos h, if_pos hbr]
    simp only [consRTs_fst, consRTs_snd, consumedBuy_append, consumedBuy_emitRTs]
    have h2 := ih j
    have h3 := avail_nextCursor buys st j
    by_cases hj : j = st.buy_idx
    · rw [if_pos hj] at h3 ⊢
      omega
    · rw [if_neg hj] at h3 ⊢
      omega
  | case2 remaining st h hbr ih =>
    intro j
    rw [matchSell, dif_pos h, if_neg hbr]
    simp only [consRTs_fst, consRTs_snd, consumedBuy_append, consumedBuy_emitRTs]
    have h2 := ih j
    have h3 := avail_decr buys st j (min remaining st.buy_remaining)
      (Nat.min_le_right _ _)
    by_cases hj : j = st.buy_idx
    · rw [if_pos hj] at h3 ⊢
      omega
    · rw [if_neg hj] at h3 ⊢
      omega
  | case3 remaining st h =>
    intro j
    rw [matchSell, dif_neg h]
    simp

/-- One sell's loop matches at most the sell's remaining quantity. -/
theorem matchSell_qsum (d : String) (c : ContractId) (buys : List Exec)
    (i : Nat) (sp sap scp : ℚ) (remaining : Nat) (st : BuyCursor) :
    qsum (matchSell d c buys i sp sap scp remaining st).2 ≤ remaining := by
  induction remaining, st using matchSell.induct d c buys i sp sap scp with
  | case1 remaining st h hbr ih =>
    rw [matchSell, dif_pos h, if_pos hbr]
    simp only [consRTs_snd, qsum_append, qsum_emitRTs]
    omega
  | case2 remaining st h hbr ih =>
    rw [matchSell, dif_pos h, if_neg hbr]
    simp only [consRTs_snd, qsum_append, qsum_emitRTs]
    omega
  | case3 remaining st h =>
    rw [matchSell, dif_neg h]
    simp

/-- One sell's loop matches exactly the decrease of the total buy-side
availability. -/
theorem matchSell_availTotal (d : String) (c : ContractId) (buys : List Exec)
    (i : Nat) (sp sap scp : ℚ) (remaining : Nat) (st : BuyCursor) :
    availTotal buys (matchSell d c buys i sp sap scp remaining st).1
      + qsum (matchSell d c buys i sp sap scp remaining st).2
      = availTotal buys st := by
  induction remaining, st using matchSell.induct d c buys i sp sap scp with
  | case1 remaining st h hbr ih =>
    rw [matchSell, dif_pos h, if_pos hbr]
    simp only [consRTs_fst, consRTs_snd, qsum_append, qsum_emitRTs]
    have h3 := availTotal_nextCursor buys st
    omega
  | case2 remaining st h hbr ih =>
    rw [matchSell, dif_pos h, if_neg hbr]
    simp only [consRTs_fst, consRTs_snd, qsum_append, qsum_emitRTs]
    have h3 := availTotal_decr buys st (min remaining st.buy_remaining)
      (Nat.min_le_right _ _)
    omega
  | case3 remaining st h =>
    rw [matchSell, dif_neg h]
    simp

theorem cursorOk_nextCursor (buys : List Exec) (st : BuyCursor) :
    cursorOk buys (nextCursor buys st) := by
  intro b hb
  rw [nextCursor_idx] at hb
  unfold nextCursor
  rw [hb]
  exact ⟨rfl, rfl, rfl⟩

theorem matchSell_cursorOk (d : String) (c : ContractId) (buys : List Exec)
    (i : Nat) (sp sap scp : ℚ) (remaining : Nat) (st : BuyCursor) :
    cursorOk buys st →
    cursorOk buys (matchSell d c buys i sp sap scp remaining st).1 := by
  induction remaining, st using matchSell.induct d c buys i sp sap scp with
  | case1 remaining st h hbr ih =>
    intro _
    rw [matchSell, dif_pos h, if_pos hbr, consRTs_fst]
    exact ih (cursorOk_nextCursor buys st)
  | case2 remaining st h hbr ih =>
    intro hok
    rw [matchSell, dif_pos h, if_neg hbr, consRTs_fst]
    exact ih hok
  | case3 remaining st h =>
    intro hok
    rw [matchSell, dif_neg h]
    exact hok

/-- Every round trip emitted by one sell's loop carries the stamped date,
the sell's index and price-derived fields, and entry-side fields read off
the buy it was matched from. -/
theorem matchSell_mem (d : String) (c : ContractId) (buys : List Exec)
    (i : Nat) (sp sap scp : ℚ) (remaining : Nat) (st : BuyCursor) :
    cursorOk buys st →
    ∀ rt ∈ (matchSell d c buys i sp sap scp remaining st).2,
      rt.date = d ∧ rt.sellIdx = i ∧ rt.exit_price = sp ∧
      st.buy_idx ≤ rt.buyIdx ∧
      rt.gross_pnl = (rt.exit_price - rt.entry_price) * (rt.quantity : ℚ) * 100 ∧
      rt.pnl_percent = (if rt.entry_price = 0 then 0
        else (rt.exit_price / rt.entry_price - 1) * 100) ∧
      ∃ b, buys[rt.buyIdx]? = some b ∧ rt.entry_price = b.price ∧
        rt.net_pnl = sap * (rt.quantity : ℚ)
          + b.amount / (b.quantity : ℚ) * (rt.quantity : ℚ) ∧
        rt.commission_total
          = (b.commission / (b.quantity : ℚ) + scp) * (rt.quantity : ℚ) := by
  induction remaining, st using matchSell.induct d c buys i sp sap scp with
  | case1 remaining st h hbr ih =>
    intro hok rt hrt
    rw [matchSell, dif_pos h, if_pos hbr, consRTs_snd] at hrt
    rcases List.mem_append.mp hrt with hl | hr
    · unfold emitRTs at hl
      split at hl
      case isFalse => simp at hl
      case isTrue h0 =>
        rw [List.mem_singleton] at hl
        subst hl
        have hsome : buys[st.buy_idx]? = some buys[st.buy_idx] :=
          List.getElem?_eq_getElem h.2
        obtain ⟨hp, ha, hc2⟩ := hok _ hsome
        refine ⟨rfl, rfl, rfl, Nat.le_refl _, rfl, rfl,
          buys[st.buy_idx], hsome, hp, ?_, ?_⟩
        · show sap * _ + st.buy_amount_per * _ = _
          rw [ha]
          rfl
        · show (st.buy_comm_per + scp) * _ = _
          rw [hc2]
          rfl
    · have hfacts := ih (cursorOk_nextCursor buys st) rt hr
      obtain ⟨h1, h2, h3, h4, h5, h6, h7⟩ := hfacts
      refine ⟨h1, h2, h3, ?_, h5, h6, h7⟩
      have := nextCursor_idx buys st
      omega
  | case2 remaining st h hbr ih =>
    intro hok rt hrt
    rw [matchSell, dif_pos h, if_neg hbr, consRTs_snd] at hrt
    rcases List.mem_append.mp hrt with hl | hr
    · unfold emitRTs at hl
      split at hl
      case isFalse => simp at hl
      case isTrue h0 =>
        rw [List.mem_singleton] at hl
        subst hl
        have hsome : buys[st.buy_idx]? = some buys[st.buy_idx] :=
          List.getElem?_eq_getElem h.2
        obtain ⟨hp, ha, hc2⟩ := hok _ hsome
        refine ⟨rfl, rfl, rfl, Nat.le_refl _, rfl, rfl,
          buys[st.buy_idx], hsome, hp, ?_, ?_⟩
        · show sap * _ + st.buy_amount_per * _ = _
          rw [ha]
          rfl
        · show (st.buy_comm_per + scp) * _ = _
          rw [hc2]
          rfl
    · have hfacts := ih hok rt hr
      obtain ⟨h1, h2, h3, h4, h5, h6, h7⟩ := hfacts
      exact ⟨h1, h2, h3, by simp at h4; omega, h5, h6, h7⟩
  | case3 remaining st h =>
    intro hok rt hrt
    rw [matchSell, dif_neg h] at hrt
    simp at hrt

/-- Every round trip of one sell's loop carries that sell's index. -/
theorem matchSell_sellIdx (d : String) (c : ContractId) (buys : List Exec)
    (i : Nat) (sp sap scp : ℚ) (remaining : Nat) (st : BuyCursor) :
    ∀ rt ∈ (matchSell d c buys i sp sap scp remaining st).2, rt.sellIdx = i := by
  induction remaining, st using matchSell.induct d c buys i sp sap scp with
  | case1 remaining st h hbr ih =>
    intro rt hrt
    rw [matchSell, dif_pos h, if_pos hbr, consRTs_snd] at hrt
    rcases List.mem_append.mp hrt with hl | hr
    · unfold emitRTs at hl
      split at hl
      · rw [List.mem_singleton] at hl
        subst hl
        rfl
      · simp at hl
    · exact ih rt hr
  | case2 remaining st h hbr ih =>
    intro rt hrt
    rw [matchSell, dif_pos h, if_neg hbr, consRTs_snd] at hrt
    rcases List.mem_append.mp hrt with hl | hr
    · unfold emitRTs at hl
      split at hl
      · rw [List.mem_singleton] at hl
        subst hl
        rfl
      · simp at hl
    · exact ih rt hr
  | case3 remaining st h =>
    intro rt hrt
    rw [matchSell, dif_neg h] at hrt
    simp at hrt

theorem consumedSell_zero (rts : List RoundTrip) (i k : Nat)
    (hall : ∀ rt ∈ rts, rt.sellIdx = i) (hk : k ≠ i) :
    consumedSell rts k = 0 := by
  unfold consumedSell
  have hnil : rts.filter (fun rt => rt.sellIdx = k) = [] := by
    induction rts with
    | nil => rfl
    | cons rt rest ih =>
      rw [List.filter_cons, if_neg]
      · exact ih (fun x hx => hall x (List.mem_cons_of_mem rt hx))
      · have := hall rt (List.mem_cons_self rt rest)
        simp [this, Ne.symm hk]
  rw [hnil]
  rfl

/-- The sell loop over a suffix of the sell list, started at sell index
`i`, matches at most the total quantity of that suffix. -/
theorem matchSells_qsum_sells (d : String) (c : ContractId) (buys : List Exec) :
    ∀ (ss : List Exec) (i : Nat) (st : BuyCursor),
      qsum (matchSells d c buys ss i st) ≤ (ss.map (·.quantity)).sum
  | [], _, _ => by simp [matchSells]
  | sell :: rest, i, st => by
    simp only [matchSells, qsum_append, List.map_cons, List.sum_cons]
    have h1 := matchSell_qsum d c buys i sell.price
      (sell.amount / (sell.quantity : ℚ)) (sell.commission / (sell.quantity : ℚ))
      sell.quantity st
    have h2 := matchSells_qsum_sells d c buys rest (i + 1)
      (matchSell d c buys i sell.price (sell.amount / (sell.quantity : ℚ))
        (sell.commission / (sell.quantity : ℚ)) sell.quantity st).1
    omega

/-- The sell loop matches at most the total buy-side availability of its
starting cursor. -/
theorem matchSells_qsum_avail (d : String) (c : ContractId) (buys : List Exec) :
    ∀ (ss : List Exec) (i : Nat) (st : BuyCursor),
      qsum (matchSells d c buys ss i st) ≤ availTotal buys st
  | [], _, _ => by simp [matchSells]
  | sell :: rest, i, st => by
    simp only [matchSells, qsum_append]
    have h1 := matchSell_availTotal d c buys i sell.price
      (sell.amount / (sell.quantity : ℚ)) (sell.commission / (sell.quantity : ℚ))
      sell.quantity st
    have h2 := matchSells_qsum_avail d c buys rest (i + 1)
      (matchSell d c buys i sell.price (sell.amount / (sell.quantity : ℚ))
        (sell.commission / (sell.quantity : ℚ)) sell.quantity st).1
    omega

/-- The sell loop draws from each buy at most that buy's availability in
the starting cursor. -/
theorem matchSells_consumedBuy (d : String) (c : ContractId) (buys : List Exec) :
    ∀ (ss : List Exec) (i : Nat) (st : BuyCursor) (j : Nat),
      consumedBuy (matchSells d c buys ss i st) j ≤ avail buys st j
  | [], _, _, _ => by simp [matchSells]
  | sell :: rest, i, st, j => by
    simp only [matchSells, consumedBuy_append]
    have h1 := matchSell_avail d c buys i sell.price
      (sell.amount / (sell.quantity : ℚ)) (sell.commission / (sell.quantity : ℚ))
      sell.quantity st j
    have h2 := matchSells_consumedBuy d c buys rest (i + 1)
      (matchSell d c buys i sell.price (sell.amount / (sell.quantity : ℚ))
        (sell.commission / (sell.quantity : ℚ)) sell.quantity st).1 j
    omega

/-- The sell loop draws from each sell at most that sell's quantity
(index `k` counts from the start of the whole sell list; the loop is at
offset `i`). -/
theorem matchSells_consumedSell (d : String) (c : ContractId) (buys : List Exec) :
    ∀ (ss : List Exec) (i : Nat) (st : BuyCursor) (k : Nat),
      consumedSell (matchSells d c buys ss i st) k
        ≤ if k < i then 0 else ((ss[k - i]?).map (·.quantity)).getD 0
  | [], _, _, _ => by
    simp only [matchSells, consumedSell_nil]
    split <;> omega
  | sell :: rest, i, st, k => by
    simp only [matchSells, consumedSell_append]
    have h2 := matchSells_consumedSell d c buys rest (i + 1)
      (matchSell d c buys i sell.price (sell.amount / (sell.quantity : ℚ))
        (sell.commission / (sell.quantity : ℚ)) sell.quantity st).1 k
    by_cases hk : k = i
    · subst hk
      have h1 : consumedSell (matchSell d c buys k sell.price
          (sell.amount / (sell.quantity : ℚ)) (sell.commission / (sell.quantity : ℚ))
          sell.quantity st).2 k
          ≤ sell.quantity := by
        calc consumedSell (matchSell d c buys k sell.price
            (sell.amount / (sell.quantity : ℚ)) (sell.commission / (sell.quantity : ℚ))
            sell.quantity st).2 k
            ≤ qsum (matchSell d c buys k sell.price
              (sell.amount / (sell.quantity : ℚ)) (sell.commission / (sell.quantity : ℚ))
              sell.quantity st).2 := qsum_filter_le _ _
          _ ≤ sell.quantity := matchSell_qsum d c buys k sell.price _ _ sell.quantity st
      rw [if_pos (show k < k + 1 by omega)] at h2
      rw [if_neg (show ¬k < k by omega)]
      have hz : k - k = 0 := by omega
      rw [hz, List.getElem?_cons_zero]
      simp only [Option.map_some', Option.getD_some]
      omega
    · have h1 : consumedSell (matchSell d c buys i sell.price
          (sell.amount / (sell.quantity : ℚ)) (sell.commission / (sell.quantity : ℚ))
          sell.quantity st).2 k = 0 :=
        consumedSell_zero _ i k
          (matchSell_sellIdx d c buys i sell.price _ _ sell.quantity st) hk
      rw [h1, Nat.zero_add]
      by_cases hki : k < i
      · rw [if_pos hki]
        rw [if_pos (by omega)] at h2
        omega
      · rw [if_neg hki]
        rw [if_neg (by omega)] at h2
        have hs : k - i = (k - (i + 1)) + 1 := by omega
        rw [hs, List.getElem?_cons_succ]
        exact h2

/-- Entry/exit field formulas for every round trip the sell loop emits,
relative to the source executions recorded by the provenance indices. -/
theorem matchSells_mem (d : String) (c : ContractId) (buys : List Exec) :
    ∀ (ss : List Exec) (i : Nat) (st : BuyCursor), cursorOk buys st →
      ∀ rt ∈ matchSells d c buys ss i st,
        rt.date = d ∧ i ≤ rt.sellIdx ∧
        rt.gross_pnl = (rt.exit_price - rt.entry_price) * (rt.quantity : ℚ) * 100 ∧
        rt.pnl_percent = (if rt.entry_price = 0 then 0
          else (rt.exit_price / rt.entry_price - 1) * 100) ∧
        ∃ s, ss[rt.sellIdx - i]? = some s ∧ rt.exit_price = s.price ∧
          ∃ b, buys[rt.buyIdx]? = some b ∧ rt.entry_price = b.price ∧
            rt.net_pnl = s.amount / (s.quantity : ℚ) * (rt.quantity : ℚ)
              + b.amount / (b.quantity : ℚ) * (rt.quantity : ℚ) ∧
            rt.commission_total = (b.commission / (b.quantity : ℚ)
              + s.commission / (s.quantity : ℚ)) * (rt.quantity : ℚ)
  | [], _, _ => by
    intro _ rt hrt
    simp [matchSells] at hrt
  | sell :: rest, i, st => by
    intro hok rt hrt
    simp only [matchSells, List.mem_append] at hrt
    rcases hrt with hl | hr
    · obtain ⟨h1, h2, h3, _, h5, h6, b, hb, hbp, hbn, hbc⟩ :=
        matchSell_mem d c buys i sell.price
          (sell.amount / (sell.quantity : ℚ)) (sell.commission / (sell.quantity : ℚ))
          sell.quantity st hok rt hl
      refine ⟨h1, by omega, h5, h6, sell, ?_, h3, b, hb, hbp, hbn, hbc⟩
      rw [h2]
      have hz : i - i = 0 := by omega
      rw [hz, List.getElem?_cons_zero]
    · obtain ⟨h1, h2, h3, h4, s, hs, hsp, b, hb, hbp, hbn, hbc⟩ :=
        matchSells_mem d c buys rest (i + 1)
          (matchSell d c buys i sell.price (sell.amount / (sell.quantity : ℚ))
            (sell.commission / (sell.quantity : ℚ)) sell.quantity st).1
          (matchSell_cursorOk d c buys i sell.price _ _ sell.quantity st hok)
          rt hr
      refine ⟨h1, by omega, h3, h4, s, ?_, hsp, b, hb, hbp, hbn, hbc⟩
      have hshift : rt.sellIdx - i = (rt.sellIdx - (i + 1)) + 1 := by omega
      rw [hshift, List.getElem?_cons_succ]
      exact hs

theorem cursorOk_init (b : Exec) (bs : List Exec) :
    cursorOk (b :: bs) ⟨0, b.quantity, b.price, b.amount / (b.quantity : ℚ),
      b.commission / (b.quantity : ℚ)⟩ := by
  intro b' hb'
  rw [show (⟨0, b.quantity, b.price, b.amount / (b.quantity : ℚ),
      b.commission / (b.quantity : ℚ)⟩ : BuyCursor).buy_idx = 0 from rfl,
    List.getElem?_cons_zero] at hb'
  cases Option.some.inj hb'
  exact ⟨rfl, rfl, rfl⟩

theorem avail_init (b : Exec) (bs : List Exec) (j : Nat) :
    avail (b :: bs) ⟨0, b.quantity, b.price, b.amount / (b.quantity : ℚ),
      b.commission / (b.quantity : ℚ)⟩ j
      = (((b :: bs)[j]?).map (·.quantity)).getD 0 := by
  unfold avail
  dsimp only
  cases j with
  | zero => simp
  | succ n => simp

theorem availTotal_init (b : Exec) (bs : List Exec) :
    availTotal (b :: bs) ⟨0, b.quantity, b.price, b.amount / (b.quantity : ℚ),
      b.commission / (b.quantity : ℚ)⟩
      = ((b :: bs).map (·.quantity)).sum := by
  unfold availTotal
  dsimp only
  simp [List.drop_one]

/-- Every round trip of a group carries the stamped trade date. -/
theorem group_mem_date (d : String) (c : ContractId) (buys sells : List Exec) :
    ∀ rt ∈ calculate_round_trips_group d c buys sells, rt.date = d := by
  cases buys with
  | nil => simp [calculate_round_trips_group]
  | cons b bs =>
    cases sells with
    | nil => simp [calculate_round_trips_group]
    | cons s ss =>
      intro rt hrt
      rw [calculate_round_trips_group] at hrt
      exact (matchSells_mem d c (b :: bs) (s :: ss) 0 _ (cursorOk_init b bs) rt hrt).1

/-- C1.  FIFO order determinism on the worked example: opens
(qty 2 at 1.00, qty 3 at 1.20) against one close (qty 4 at 1.50) emit
exactly the two round trips (2, 1.00, 1.50) then (2, 1.20, 1.50), with 1
unit of the second open left unmatched. -/
theorem fifo_order_on_example :
    (calculate_round_trips_group "2026-02-05" qqqCall
        [buyTwoAtOne, buyThreeAtSixFifths] [sellFourAtThreeHalves]).map
      (fun rt => (rt.quantity, rt.entry_price, rt.exit_price))
      = [(2, 1, 3 / 2), (2, 6 / 5, 3 / 2)]
    ∧ consumedBuy (calculate_round_trips_group "2026-02-05" qqqCall
        [buyTwoAtOne, buyThreeAtSixFifths] [sellFourAtThreeHalves]) 1 + 1
      = buyThreeAtSixFifths.quantity := by
  rw [← groupEval_eq]
  with_unfolding_all decide

/-- C2.  Quantity conservation: the total matched quantity of a (date,
contract) group never exceeds the total buy quantity nor the total sell
quantity. -/
theorem quantity_conservation (d : String) (c : ContractId)
    (buys sells : List Exec)
    (hb : ∀ e ∈ buys, 0 < e.quantity) (hs : ∀ e ∈ sells, 0 < e.quantity) :
    qsum (calculate_round_trips_group d c buys sells)
        ≤ (buys.map (·.quantity)).sum
    ∧ qsum (calculate_round_trips_group d c buys sells)
        ≤ (sells.map (·.quantity)).sum := by
  cases buys with
  | nil => simp [calculate_round_trips_group, qsum]
  | cons b bs =>
    cases sells with
    | nil => simp [calculate_round_trips_group, qsum]
    | cons s ss =>
      rw [calculate_round_trips_group]
      constructor
      · have h1 := matchSells_qsum_avail d c (b :: bs) (s :: ss) 0
          ⟨0, b.quantity, b.price, b.amount / (b.quantity : ℚ),
           b.commission / (b.quantity : ℚ)⟩
        rw [availTotal_init] at h1
        exact h1
      · exact matchSells_qsum_sells d c (b :: bs) (s :: ss) 0 _

theorem quantity_conservation_witness :
    (∀ e ∈ [buyTwoAtOne, buyThreeAtSixFifths], 0 < e.quantity)
    ∧ (∀ e ∈ [sellFourAtThreeHalves], 0 < e.quantity)
    ∧ qsum (calculate_round_trips_group "2026-02-05" qqqCall
        [buyTwoAtOne, buyThreeAtSixFifths] [sellFourAtThreeHalves])
      ≤ ([buyTwoAtOne, buyThreeAtSixFifths].map (·.quantity)).sum
    ∧ qsum (calculate_round_trips_group "2026-02-05" qqqCall
        [buyTwoAtOne, buyThreeAtSixFifths] [sellFourAtThreeHalves])
      ≤ ([sellFourAtThreeHalves].map (·.quantity)).sum :=
  ⟨by decide, by decide,
   (quantity_conservation "2026-02-05" qqqCall _ _ (by decide) (by decide)).1,
   (quantity_conservation "2026-02-05" qqqCall _ _ (by decide) (by decide)).2⟩

/-- C3 counterexample.  On the worked example the second open (quantity 3)
contributes only 2 contracts to the emitted round trips: the "equals that
execution's quantity" claim fails. -/
theorem full_consumption_fails :
    consumedBuy (calculate_round_trips_group "2026-02-05" qqqCall
        [buyTwoAtOne, buyThreeAtSixFifths] [sellFourAtThreeHalves]) 1 = 2
    ∧ buyThreeAtSixFifths.quantity = 3
    ∧ (2 : Nat) ≠ 3 := by
  rw [← groupEval_eq]
  with_unfolding_all decide

/-- C3 amended.  No execution is over-consumed: the matched quantity drawn
from each buy (respectively each sell) of a group is at most that
execution's quantity; leftover quantity may remain unmatched. -/
theorem no_double_use (d : String) (c : ContractId) (buys sells : List Exec)
    (hb : ∀ e ∈ buys, 0 < e.quantity) (hs : ∀ e ∈ sells, 0 < e.quantity) :
    (∀ j, consumedBuy (calculate_round_trips_group d c buys sells) j
        ≤ ((buys[j]?).map (·.quantity)).getD 0)
    ∧ (∀ k, consumedSell (calculate_round_trips_group d c buys sells) k
        ≤ ((sells[k]?).map (·.quantity)).getD 0) := by
  cases buys with
  | nil => simp [calculate_round_trips_group, consumedBuy, consumedSell, qsum]
  | cons b bs =>
    cases sells with
    | nil => simp [calculate_round_trips_group, consumedBuy, consumedSell, qsum]
    | cons s ss =>
      rw [calculate_round_trips_group]
      constructor
      · intro j
        have h1 := matchSells_consumedBuy d c (b :: bs) (s :: ss) 0
          ⟨0, b.quantity, b.price, b.amount / (b.quantity : ℚ),
           b.commission / (b.quantity : ℚ)⟩ j
        rw [avail_init] at h1
        exact h1
      · intro k
        have h2 := matchSells_consumedSell d c (b :: bs) (s :: ss) 0
          ⟨0, b.quantity, b.price, b.amount / (b.quantity : ℚ),
           b.commission / (b.quantity : ℚ)⟩ k
        rw [if_neg (by omega), Nat.sub_zero] at h2
        exact h2

theorem no_double_use_witness :
    (∀ e ∈ [buyTwoAtOne, buyThreeAtSixFifths], 0 < e.quantity)
    ∧ (∀ e ∈ [sellFourAtThreeHalves], 0 < e.quantity)
    ∧ consumedBuy (calculate_round_trips_group "2026-02-05" qqqCall
        [buyTwoAtOne, buyThreeAtSixFifths] [sellFourAtThreeHalves]) 1
      ≤ (([buyTwoAtOne, buyThreeAtSixFifths][1]?).map (·.quantity)).getD 0
    ∧ consumedSell (calculate_round_trips_group "2026-02-05" qqqCall
        [buyTwoAtOne, buyThreeAtSixFifths] [sellFourAtThreeHalves]) 0
      ≤ (([sellFourAtThreeHalves][0]?).map (·.quantity)).getD 0 :=
  ⟨by decide, by decide,
   (no_double_use "2026-02-05" qqqCall _ _ (by decide) (by decide)).1 1,
   (no_double_use "2026-02-05" qqqCall _ _ (by decide) (by decide)).2 0⟩

/-- C4.  Field formulas of every emitted round trip, relative to the open
(`b`) and close (`s`) executions it was matched from:
gross is price-based with the fixed 100 contract multiplier, net is the
sum of both legs' per-unit amounts times the matched quantity, commission
is the sum of both legs' per-unit commissions times the matched quantity,
and P/L percent is price-ratio based with a zero guard. -/
theorem round_trip_field_formulas (d : String) (c : ContractId)
    (buys sells : List Exec)
    (hb : ∀ e ∈ buys, 0 < e.quantity) (hs : ∀ e ∈ sells, 0 < e.quantity) :
    ∀ rt ∈ calculate_round_trips_group d c buys sells,
      ∃ b s, buys[rt.buyIdx]? = some b ∧ sells[rt.sellIdx]? = some s ∧
        rt.entry_price = b.price ∧ rt.exit_price = s.price ∧
        rt.gross_pnl = (rt.exit_price - rt.entry_price) * (rt.quantity : ℚ) * 100 ∧
        rt.net_pnl = s.amount / (s.quantity : ℚ) * (rt.quantity : ℚ)
          + b.amount / (b.quantity : ℚ) * (rt.quantity : ℚ) ∧
        rt.commission_total = (b.commission / (b.quantity : ℚ)
          + s.commission / (s.quantity : ℚ)) * (rt.quantity : ℚ) ∧
        rt.pnl_percent = (if rt.entry_price = 0 then 0
          else (rt.exit_price / rt.entry_price - 1) * 100) := by
  cases buys with
  | nil => simp [calculate_round_trips_group]
  | cons b bs =>
    cases sells with
    | nil => simp [calculate_round_trips_group]
    | cons s ss =>
      intro rt hrt
      rw [calculate_round_trips_group] at hrt
      obtain ⟨_, _, h3, h4, s', hs', hsp, b', hb', hbp, hbn, hbc⟩ :=
        matchSells_mem d c (b :: bs) (s :: ss) 0 _ (cursorOk_init b bs) rt hrt
      rw [Nat.sub_zero] at hs'
      exact ⟨b', s', hb', hs', hbp, hsp, h3, hbn, hbc, h4⟩

set_option maxRecDepth 10000 in
theorem round_trip_field_formulas_witness :
    (∀ e ∈ [buyTwoAtOne, buyThreeAtSixFifths], 0 < e.quantity)
    ∧ (∀ e ∈ [sellFourAtThreeHalves], 0 < e.quantity)
    ∧ rtFirst ∈ calculate_round_trips_group "2026-02-05" qqqCall
        [buyTwoAtOne, buyThreeAtSixFifths] [sellFourAtThreeHalves]
    ∧ (∃ b s, [buyTwoAtOne, buyThreeAtSixFifths][rtFirst.buyIdx]? = some b
        ∧ [sellFourAtThreeHalves][rtFirst.sellIdx]? = some s ∧
        rtFirst.entry_price = b.price ∧ rtFirst.exit_price = s.price ∧
        rtFirst.gross_pnl
          = (rtFirst.exit_price - rtFirst.entry_price) * (rtFirst.quantity : ℚ) * 100 ∧
        rtFirst.net_pnl = s.amount / (s.quantity : ℚ) * (rtFirst.quantity : ℚ)
          + b.amount / (b.quantity : ℚ) * (rtFirst.quantity : ℚ) ∧
        rtFirst.commission_total = (b.commission / (b.quantity : ℚ)
          + s.commission / (s.quantity : ℚ)) * (rtFirst.quantity : ℚ) ∧
        rtFirst.pnl_percent = (if rtFirst.entry_price = 0 then 0
          else (rtFirst.exit_price / rtFirst.entry_price - 1) * 100)) :=
  ⟨by decide, by decide, by rw [← groupEval_eq]; with_unfolding_all decide,
   round_trip_field_formulas "2026-02-05" qqqCall _ _ (by decide) (by decide)
     rtFirst (by rw [← groupEval_eq]; with_unfolding_all decide)⟩

/-- C10.  Termination of the inner matching loop, as an explicit fuel
bound: whenever the fuel exceeds the lexicographic measure
(buys not yet passed, plus the close's remaining quantity), the
fuel-indexed loop completes and agrees with the loop's value — each
iteration either strictly decreases the close's remaining quantity or
advances the buy cursor. -/
theorem matcher_loop_terminates (d : String) (c : ContractId)
    (buys : List Exec) (i : Nat) (sp sap scp : ℚ)
    (fuel remaining : Nat) (st : BuyCursor)
    (hq : ∀ e ∈ buys, 0 < e.quantity)
    (hfuel : buys.length - st.buy_idx + remaining < fuel) :
    matchSellFuel d c buys i sp sap scp fuel remaining st
      = some (matchSell d c buys i sp sap scp remaining st) :=
  matchSellFuel_correct d c buys i sp sap scp fuel remaining st hfuel

theorem matcher_loop_terminates_witness :
    (∀ e ∈ [buyTwoAtOne], 0 < e.quantity)
    ∧ [buyTwoAtOne].length - c10Cursor.buy_idx + 3 < 10
    ∧ matchSellFuel "2026-02-05" qqqCall [buyTwoAtOne] 0 (3 / 2) (3 / 2) 0 10 3 c10Cursor
      = some (matchSell "2026-02-05" qqqCall [buyTwoAtOne] 0 (3 / 2) (3 / 2) 0 3 c10Cursor) :=
  ⟨by decide, by decide,
   matcher_loop_terminates "2026-02-05" qqqCall [buyTwoAtOne] 0 (3 / 2) (3 / 2) 0
     10 3 c10Cursor (by decide) (by decide)⟩

theorem filter_twice {α : Type} (p : α → Bool) (l : List α) :
    (l.filter p).filter p = l.filter p := by
  induction l with
  | nil => rfl
  | cons a l ih =>
    rw [List.filter_cons]
    by_cases h : p a = true
    · rw [if_pos h, List.filter_cons, if_pos h, ih]
    · rw [if_neg h, ih]

theorem filter_of_all_false {α : Type} (p : α → Bool) (l : List α)
    (h : ∀ x ∈ l, p x = false) : l.filter p = [] := by
  induction l with
  | nil => rfl
  | cons a l ih =>
    rw [List.filter_cons, if_neg (by rw [h a (List.mem_cons_self a l)]; simp)]
    exact ih (fun x hx => h x (List.mem_cons_of_mem a hx))

theorem filter_of_all_true {α : Type} (p : α → Bool) (l : List α)
    (h : ∀ x ∈ l, p x = true) : l.filter p = l := by
  induction l with
  | nil => rfl
  | cons a l ih =>
    rw [List.filter_cons, if_pos (h a (List.mem_cons_self a l)),
      ih (fun x hx => h x (List.mem_cons_of_mem a hx))]

/-- Every round trip regenerated for a date carries that date. -/
theorem dayRoundTrips_date (execs : List Exec) (d : String) :
    ∀ rt ∈ dayRoundTrips execs d, rt.date = d := by
  intro rt hrt
  unfold dayRoundTrips at hrt
  rw [List.mem_flatten] at hrt
  obtain ⟨l, hl, hrtl⟩ := hrt
  rw [List.mem_map] at hl
  obtain ⟨c, _, rfl⟩ := hl
  unfold groupRoundTrips at hrtl
  exact group_mem_date d c _ _ rt hrtl

/-- Two database states with equal tables are equal. -/
theorem DB_ext (a b : DB) (h1 : a.executions = b.executions)
    (h2 : a.round_trips = b.round_trips)
    (h3 : a.daily_summary = b.daily_summary) : a = b := by
  cases a
  cases b
  cases h1
  cases h2
  cases h3
  rfl

/-- Normal form of one `recomputeDay`: executions are untouched, the
date's round trips are fully replaced, and the summary row is replaced
exactly when the regenerated round-trip set is non-empty. -/
theorem recomputeDay_parts (db : DB) (d : String) :
    (recomputeDay db d).executions = db.executions
    ∧ (recomputeDay db d).round_trips
      = db.round_trips.filter (fun rt => rt.date ≠ d) ++ dayRoundTrips db.executions d
    ∧ (recomputeDay db d).daily_summary
      = (match summarize (dayRoundTrips db.executions d) with
        | none => db.daily_summary
        | some s => db.daily_summary.filter (fun p => p.1 ≠ d) ++ [(d, s)]) := by
  have hfilter : ((db.round_trips.filter (fun rt => rt.date ≠ d)
      ++ dayRoundTrips db.executions d).filter (fun rt => rt.date = d))
      = dayRoundTrips db.executions d := by
    rw [List.filter_append,
      filter_of_all_false _ _ (by
        intro x hx
        rw [List.mem_filter] at hx
        simp only [decide_eq_true_eq] at hx
        simp [hx.2]),
      filter_of_all_true _ _ (by
        intro x hx
        simp [dayRoundTrips_date db.executions d x hx]),
      List.nil_append]
  unfold recomputeDay calculate_daily_summary calculate_round_trips
  dsimp only
  rw [hfilter]
  cases summarize (dayRoundTrips db.executions d) <;>
    exact ⟨rfl, rfl, rfl⟩

/-- C5.  Recompute idempotence: for every date, running the round-trip
recomputation followed by the daily-summary recomputation a second time
over unchanged executions reproduces the first run's database state
exactly (no duplicate accumulation). -/
theorem recompute_idempotent (db : DB) (d : String) :
    recomputeDay (recomputeDay db d) d = recomputeDay db d := by
  obtain ⟨he1, hr1, hs1⟩ := recomputeDay_parts db d
  obtain ⟨he2, hr2, hs2⟩ := recomputeDay_parts (recomputeDay db d) d
  have hnewdates : ∀ rt ∈ dayRoundTrips db.executions d,
      (decide (rt.date ≠ d)) = false := by
    intro rt hrt
    simp [dayRoundTrips_date db.executions d rt hrt]
  apply DB_ext
  · rw [he2, he1]
  · rw [hr2, he1, hr1, List.filter_append, filter_twice,
      filter_of_all_false _ _ hnewdates, List.append_nil]
  · rw [hs2, he1, hs1]
    cases hsum : summarize (dayRoundTrips db.executions d) with
    | none => rfl
    | some s =>
      rw [List.filter_append, filter_twice,
        filter_of_all_false _ [(d, s)] (by intro x hx; rw [List.mem_singleton] at hx; subst hx; simp),
        List.append_nil]

/-- C9 amended.  When recomputation yields zero round trips for a date, no
summary row is produced or replaced: the `daily_summary` table — and hence
the date's lookup — is left exactly as before (stale row included), while
the date's round trips are still cleared. -/
theorem empty_day_summary_untouched (db : DB) (d : String)
    (h : dayRoundTrips db.executions d = []) :
    (recomputeDay db d).daily_summary = db.daily_summary
    ∧ getDailySummary (recomputeDay db d) d = getDailySummary db d
    ∧ (recomputeDay db d).round_trips
      = db.round_trips.filter (fun rt => rt.date ≠ d) := by
  obtain ⟨he, hr, hs⟩ := recomputeDay_parts db d
  rw [h] at hs hr
  have h1 : (recomputeDay db d).daily_summary = db.daily_summary := hs
  refine ⟨h1, ?_, by rw [hr, List.append_nil]⟩
  unfold getDailySummary
  rw [h1]

/-- C9 counterexample.  After recomputing a date with zero round trips,
the query does not return "absent": the pre-existing summary row is still
there. -/
theorem stale_summary_remains :
    getDailySummary (recomputeDay dbStale "2026-02-05") "2026-02-05"
      = some summaryStale
    ∧ some summaryStale ≠ (none : Option DailySummary) := by
  obtain ⟨he, hr, hs⟩ := recomputeDay_parts dbStale "2026-02-05"
  have hday : dayRoundTrips dbStale.executions "2026-02-05" = [] := rfl
  rw [hday] at hs
  have hs' : (recomputeDay dbStale "2026-02-05").daily_summary
      = dbStale.daily_summary := hs
  constructor
  · unfold getDailySummary
    rw [hs']
    rfl
  · simp

theorem empty_day_summary_untouched_witness :
    dayRoundTrips dbStale.executions "2026-02-05" = []
    ∧ (recomputeDay dbStale "2026-02-05").daily_summary = dbStale.daily_summary
    ∧ getDailySummary (recomputeDay dbStale "2026-02-05") "2026-02-05"
      = getDailySummary dbStale "2026-02-05"
    ∧ (recomputeDay dbStale "2026-02-05").round_trips
      = dbStale.round_trips.filter (fun rt => rt.date ≠ "2026-02-05") :=
  ⟨rfl,
   (empty_day_summary_untouched dbStale "2026-02-05" rfl).1,
   (empty_day_summary_untouched dbStale "2026-02-05" rfl).2.1,
   (empty_day_summary_untouched dbStale "2026-02-05" rfl).2.2⟩

/-- C6 counterexample.  With net P/L values [+50, −0.005], the code
divides by the actual loss sum 0.005 (profit factor 10000), not by
`max(0.01, 0.005) = 0.01` (which would give 5000): the epsilon is a
substitute used only when the loss sum is zero, not a floor. -/
theorem profit_factor_not_max_epsilon :
    (summarize [rtNet 50, rtNet (-1 / 200)]).map (·.profit_factor) = some 10000
    ∧ profit_factor_spec_formula [rtNet 50, rtNet (-1 / 200)] (1 / 100) = 5000
    ∧ (10000 : ℚ) ≠ 5000 := by
  refine ⟨?_, ?_, by norm_num⟩
  · norm_num [summarize, rtNet]
    rw [abs_of_pos (by norm_num : (0 : ℚ) < 1 / 200)]
    norm_num
  · norm_num [profit_factor_spec_formula, rtNet]
    rw [abs_of_pos (by norm_num : (0 : ℚ) < 1 / 200), sup_eq_max,
      max_eq_left (by norm_num : (1 : ℚ) / 200 ≤ 1 / 100)]
    norm_num

/-- C6 amended.  For every non-empty round-trip set, the profit factor
equals (sum of positive net P/L) divided by the absolute sum of negative
net P/L when that sum is nonzero, and by the epsilon 0.01 when it is zero;
in particular a day whose round trips all have positive net P/L yields the
finite positive ratio 100 × (total net P/L), never a division fault. -/
theorem profit_factor_code_formula (rts : List RoundTrip) (h : rts ≠ []) :
    (summarize rts).map (·.profit_factor)
      = some ((((rts.map (·.net_pnl)).filter (fun x => 0 < x)).sum)
          / (if |((rts.map (·.net_pnl)).filter (fun x => x < 0)).sum| = 0 then 1 / 100
             else |((rts.map (·.net_pnl)).filter (fun x => x < 0)).sum|))
    ∧ ((∀ rt ∈ rts, 0 < rt.net_pnl) →
        (summarize rts).map (·.profit_factor)
          = some (100 * (rts.map (·.net_pnl)).sum)
        ∧ 0 < 100 * (rts.map (·.net_pnl)).sum) := by
  have hne : rts.isEmpty = false := by
    cases rts with
    | nil => exact absurd rfl h
    | cons r rest => rfl
  have hmain : (summarize rts).map (·.profit_factor)
      = some ((((rts.map (·.net_pnl)).filter (fun x => 0 < x)).sum)
          / (if |((rts.map (·.net_pnl)).filter (fun x => x < 0)).sum| = 0 then 1 / 100
             else |((rts.map (·.net_pnl)).filter (fun x => x < 0)).sum|)) := by
    unfold summarize
    rw [hne]
    simp only [Bool.false_eq_true, if_false, Option.map_some']
    congr 1
    by_cases hl : |((rts.map (·.net_pnl)).filter (fun x => x < 0)).sum| = 0
    · rw [if_pos hl, if_pos (show (0 : ℚ) < 1 / 100 by norm_num)]
    · rw [if_neg hl, if_pos (by
        rcases lt_or_eq_of_le (abs_nonneg (((rts.map (·.net_pnl)).filter (fun x => x < 0)).sum)) with hgt | heq
        · exact hgt
        · exact absurd heq.symm hl)]
  refine ⟨hmain, fun hall => ?_⟩
  have hnegnil : (rts.map (·.net_pnl)).filter (fun x => x < 0) = [] := by
    apply filter_of_all_false
    intro x hx
    rw [List.mem_map] at hx
    obtain ⟨rt, hrt, rfl⟩ := hx
    simp only [decide_eq_false_iff_not, not_lt]
    exact le_of_lt (hall rt hrt)
  have hposall : (rts.map (·.net_pnl)).filter (fun x => 0 < x) = rts.map (·.net_pnl) := by
    apply filter_of_all_true
    intro x hx
    rw [List.mem_map] at hx
    obtain ⟨rt, hrt, rfl⟩ := hx
    simp only [decide_eq_true_eq]
    exact hall rt hrt
  have hsumpos : 0 < (rts.map (·.net_pnl)).sum := by
    apply List.sum_pos
    · intro x hx
      rw [List.mem_map] at hx
      obtain ⟨rt, hrt, rfl⟩ := hx
      exact hall rt hrt
    · intro hmapnil
      rw [List.map_eq_nil_iff] at hmapnil
      exact h hmapnil
  constructor
  · rw [hmain, hnegnil, hposall]
    norm_num
    ring
  · positivity

theorem profit_factor_code_formula_witness :
    ([rtNet 50] ≠ ([] : List RoundTrip))
    ∧ (summarize [rtNet 50]).map (·.profit_factor)
      = some (((([rtNet 50].map (·.net_pnl)).filter (fun x => 0 < x)).sum)
          / (if |(([rtNet 50].map (·.net_pnl)).filter (fun x => x < 0)).sum| = 0 then 1 / 100
             else |(([rtNet 50].map (·.net_pnl)).filter (fun x => x < 0)).sum|))
    ∧ (summarize [rtNet 50]).map (·.profit_factor)
      = some (100 * ([rtNet 50].map (·.net_pnl)).sum) :=
  ⟨by simp,
   (profit_factor_code_formula [rtNet 50] (by simp)).1,
   ((profit_factor_code_formula [rtNet 50] (by simp)).2
     (by with_unfolding_all decide)).1⟩

/-- C7.  Aggregation on the concrete cohort [+50, −20, +10, −5]: 2
winners, 2 losers, 0 scratches, net +35, profit factor 60/25 = 12/5, win
rate 50%. -/
theorem daily_aggregation_example :
    (summarize [rtNet 50, rtNet (-20), rtNet 10, rtNet (-5)]).map
      (fun s => (s.winners, s.losers, s.scratches, s.net_pnl, s.profit_factor, s.win_rate))
      = some (2, 2, 0, 35, 12 / 5, 50) := by
  norm_num [summarize, rtNet]

set_option maxRecDepth 10000 in
/-- C8 counterexample.  Importing the batch inserts exactly nine
executions and does not abort, but the reported `skipped` count is 0, not
1: the malformed-date row is dropped by a bare `continue` and only
duplicate inserts are counted. -/
theorem import_skip_count_not_reported :
    (import_etrade_csv c8Rows).imported = 9
    ∧ (import_etrade_csv c8Rows).skipped = 0
    ∧ (0 : Nat) ≠ 1 := by
  with_unfolding_all decide

set_option maxRecDepth 10000 in
/-- C8 amended.  The batch with one malformed-date row and nine valid
non-duplicate option rows inserts exactly nine executions without
aborting; the malformed row is skipped silently, so the skipped counter
(which counts only ignored duplicates) reads zero. -/
theorem import_skips_malformed_silently :
    (import_etrade_csv c8Rows).executions.length = 9
    ∧ (import_etrade_csv c8Rows).imported = 9
    ∧ (import_etrade_csv c8Rows).skipped = 0 := by
  with_unfolding_all decide

end TradingJournal

